import Mathlib

/-!
Verification of the network composition and evolution scheduler of the
`rockpool`/`NetworksPython` repository, against its specification.

The definitions below are a shallow embedding of
`NetworksPython/networks/network.py`.  Python `Decimal` values (all of
them nonnegative, finite-precision decimals in this code) are modelled
as exact rationals `ℚ`; Python exceptions are modelled either with
`Except` (for operations whose post-raise state no claim observes) or
with a `Network × Option NetworkError` pair (for mutating methods, whose
in-place mutations survive a raise).  Python compares layer objects by
identity (`is`); layers are identified here by their `name`, which is
unique within a network.  Loops whose Python form is recursion or
`while` are written with an explicit fuel argument that provably
suffices, so that every definition reduces by evaluation.
-/

namespace Rockpool

/-- Module constant `tol_rel = 1e-5` of network.py. -/
def tol_rel : ℚ := 1 / 100000

/-- Module constant `decimal_base = 1e-7` of network.py. -/
def decimal_base : ℚ := 1 / 10000000

/-- Module constant `tol_abs = 1e-10` of network.py. -/
def tol_abs : ℚ := 1 / 10000000000

/-- Python `Decimal.__mod__` for the nonnegative operands used in this
module: `a % b = a - b * floor (a / b)` (truncated and floored division
agree on nonnegative operands). -/
def decMod (a b : ℚ) : ℚ := a - b * (⌊a / b⌋ : ℤ)

/-- `is_multiple(a, b, tol_rel, tol_abs)` of network.py: whether `a % b`
is 0 within tolerance, computed in exact (decimal) arithmetic. -/
def is_multiple (a b : ℚ) (trel : ℚ := tol_rel) (tabs : ℚ := tol_abs) : Bool :=
  decide (min (decMod a b) (b - decMod a b) < trel * b + tabs)

/-- `np.round`: round half to even, as numpy does. -/
def npRound (x : ℚ) : ℤ :=
  let f : ℤ := ⌊x⌋
  let r : ℚ := x - f
  if r < 1 / 2 then f
  else if 1 / 2 < r then f + 1
  else if f % 2 = 0 then f else f + 1

/-- `np.isclose(a, b)` with numpy's defaults `rtol = 1e-5`,
`atol = 1e-8`. -/
def np_isclose (a b : ℚ) : Bool :=
  decide (|a - b| ≤ 1 / 100000000 + 1 / 100000 * |b|)

/-- `np.amax` over a list of decimals (the argument is never empty at
its call site). -/
def np_amax : List ℚ → ℚ
  | [] => 0
  | d :: ds => ds.foldl max d

/-- The recursion of `gcd(a, b)` of network.py over the exact decimals
the source computes with, with an explicit bound `fuel` on the recursion
depth.  `gcdDecFuel (depth+1) a b` models the call `gcd(a, b)` whenever
the recursion terminates within `depth` unfoldings. -/
def gcdDecFuel : ℕ → ℚ → ℚ → Option ℚ
  | 0, _, _ => none
  | fuel + 1, a, b => if b = 0 then some a else gcdDecFuel fuel b (decMod a b)

/-- `gcd(a, b)` of network.py on grid coordinates: at its only internal
call site (`lcm`) both arguments are whole-number decimals, on which the
Euclidean recursion is exactly the recursion below.  Fuel `b + 1`
suffices because the second argument strictly decreases
(`gcd_eq_rec` recovers the source's recursion verbatim). -/
def gcdFuel : ℕ → ℕ → ℕ → ℕ
  | 0, a, _ => a
  | fuel + 1, a, b => if b = 0 then a else gcdFuel fuel b (a % b)

/-- Entry point for the integer-grid Euclidean `gcd`. -/
def gcd (a b : ℕ) : ℕ := gcdFuel (b + 1) a b

/-- The error kinds network.py raises (`NetworkError`, `ValueError` and
`AssertionError`), with the identifying data their messages carry. -/
inductive NetworkError where
  /-- `connect`: "Dimensions of layers `pre` (size=..) and `post`
  (size_in=..) do not match". -/
  | dimensionMismatch (preName postName : String) (size size_in : ℕ)
  /-- `connect`: "Input / output classes of layer `pre` (output_type =
  ..) and `post` (input_type = ..) do not match". -/
  | typeMismatch (preName postName : String) (output_type input_type : ℕ)
  /-- `_set_evolution_order`: "Cannot resolve evolution order of
  layers". -/
  | cannotResolveOrder
  /-- `_check_sync`: "Not all layers are in sync with the network". -/
  | notInSync
  /-- `evolve`: `KeyError` when a predecessor's output is missing from
  the signal dict. -/
  | missingSignal (name : String)
  /-- `_set_dt` (forced dt): "dt is set to .., which is not a multiple
  of layer `..`'s time step (..)". -/
  | forcedDtMismatch (dt : ℚ) (lyrName : String) (lyrDt : ℚ)
  /-- `lcm`: "Too small values to find lcm". -/
  | lcmValuesTooSmall
  /-- `_set_dt`: "dt is too small for one or more layers". -/
  | dtTooSmall
  /-- `_set_dt`: "Couldn't find a reasonable common time step". -/
  | noCommonTimestep
  /-- `add_layer`: assertion "Layer time must match network time". -/
  | layerTimeMismatch (netT lyrT : ℚ)
  /-- `remove_layer`: `KeyError` from `layerset.remove`. -/
  | layerNotInNetwork (name : String)
  /-- `__init__`: assertion "dt must be positive". -/
  | dtNotPositive
deriving DecidableEq

deriving instance DecidableEq for Except

/-- `lcm(a, b)` of network.py: rescale both operands by `decimal_base`
and round to integers, fail if the rounding is lossy beyond `tol_rel`,
else compute `a / gcd(a, b) * b * decimal_base` on the rescaled values.
The rescaled values are nonnegative integers here (all call sites pass
positive decimals), written as `ℕ` via `Int.toNat`. -/
def lcm (a b : ℚ) : Except NetworkError ℚ :=
  let a_rnd : ℤ := npRound (a / decimal_base)
  let b_rnd : ℤ := npRound (b / decimal_base)
  if tol_rel < |(a_rnd : ℚ) - a / decimal_base| ∨
      tol_rel < |(b_rnd : ℚ) - b / decimal_base| then
    .error .lcmValuesTooSmall
  else
    .ok ((a_rnd : ℚ) / (gcd a_rnd.toNat b_rnd.toNat : ℕ) * (b_rnd : ℚ) * decimal_base)

/-- The `for dt in dt_list[1:]` fold of `_set_dt`: `t_lcm = lcm(t_lcm,
dt)`, re-raising a `lcm` failure as "dt is too small for one or more
layers". -/
def fold_lcm : ℚ → List ℚ → Except NetworkError ℚ
  | acc, [] => .ok acc
  | acc, d :: ds =>
    match lcm acc d with
    | .error _ => .error .dtTooSmall
    | .ok v => fold_lcm v ds

/-- A layer as the scheduler sees it (the attributes network.py reads
and writes).  `timestep` is the layer's `_timestep`,
`timesteps_per_network_dt` its `_timesteps_per_network_dt`; `pre_layer`
holds the predecessor's name (`None` or a layer object in the source);
`input_type`/`output_type` are the opaque comparable type tags. -/
structure Layer where
  name : String
  size_in : ℕ
  size : ℕ
  dt : ℚ
  timestep : ℕ
  input_type : ℕ
  output_type : ℕ
  pre_layer : Option String
  external_input : Bool
  timesteps_per_network_dt : ℕ
deriving DecidableEq

/-- Modelled from the spec: the modern `Layer` base class (its file is
not under src/) exposes `t`, "its current logical time, derivable as
`internal_timestep * dt`" (spec §3). -/
def Layer.t (lyr : Layer) : ℚ := (lyr.timestep : ℚ) * lyr.dt

/-- Modelled from the spec: the `Layer` base class's `reset_all` resets
the layer's time bookkeeping so the layer "reports t == 0" (spec §3
lifecycle and §8); the in-src layer `ButterMelFilter.reset_all` does
exactly `self._timestep = 0`.  The layer's numeric state is opaque to
the scheduler and not modelled. -/
def Layer.reset_all (lyr : Layer) : Layer := { lyr with timestep := 0 }

/-- The `Network` aggregate.  `layers` is the `layerset` in its
iteration order; after every successful `_set_evolution_order` the
stored order is the evolution order (`evol_order` and `layerset` hold
the same layer objects in the source).  `dt` is the `_dt` attribute
(also exposed unchanged by the `dt` property), `None` until derived. -/
structure Network where
  layers : List Layer
  timestep : ℕ
  dt : Option ℚ
  force_dt : Bool
deriving DecidableEq

/-- The `t` property of `Network`: 0 when `_dt` is unset or `None`,
else `_dt * _timestep`. -/
def Network.t (net : Network) : ℚ :=
  match net.dt with
  | none => 0
  | some d => d * (net.timestep : ℚ)

/-- The trailing loop of `_set_dt`: store
`int(np.round(self._dt / lyr.dt))` on every layer. -/
def update_ratios (layers : List Layer) (d : ℚ) : List Layer :=
  layers.map fun lyr =>
    { lyr with timesteps_per_network_dt := (npRound (d / lyr.dt)).toNat }

/-- `_set_dt(max_factor=100)` of network.py.  With `_force_dt` set it
only validates each layer's dt against the forced dt (which
construction always set, hence `getD`); otherwise it folds `lcm` over
the layer dts, fails if the result exceeds `max_factor * max(dt)` or is
not a multiple of every dt, and stores it as `_dt`.  Both branches then
store each layer's `_timesteps_per_network_dt`.  The Python function
returns `None` on every path; an `.error` leaves the network unchanged,
exactly as the source raises before mutating. -/
def set_dt (net : Network) (max_factor : ℚ := 100) : Except NetworkError Network :=
  if net.force_dt then
    let d := net.dt.getD 0
    match net.layers.find? (fun lyr => ! is_multiple d lyr.dt) with
    | some lyr => .error (.forcedDtMismatch d lyr.name lyr.dt)
    | none => .ok { net with layers := update_ratios net.layers d }
  else
    match net.layers.map (fun lyr => lyr.dt) with
    | [] => .ok net
    | d0 :: rest =>
      match fold_lcm d0 rest with
      | .error e => .error e
      | .ok t_lcm =>
        if max_factor * np_amax (d0 :: rest) < t_lcm ∨
            (d0 :: rest).any (fun dt => ! is_multiple t_lcm dt) then
          .error .noCommonTimestep
        else
          .ok { net with dt := some t_lcm, layers := update_ratios net.layers t_lcm }

/-- Whether `candidate_lyr.pre_layer in remaining_lyrs` (identity
membership of the predecessor object in the remaining set; `None` is
never a member). -/
def preIn (c : Layer) (remaining : List Layer) : Bool :=
  match c.pre_layer with
  | none => false
  | some p => remaining.any fun l => l.name == p

/-- `find_next_layer` of `_set_evolution_order`: pop candidates until
one's predecessor is no longer among the remaining layers; raise
"Cannot resolve evolution order" when no candidate is left. -/
def find_next_layer (remaining : List Layer) : List Layer → Except NetworkError Layer
  | [] => .error .cannotResolveOrder
  | c :: cs => if preIn c remaining then find_next_layer remaining cs else .ok c

/-- The `while remaining_lyrs` loop of `_set_evolution_order`, with fuel:
each iteration emits one eligible layer and removes it from the
remaining set, so fuel `|remaining|` suffices (the fuel-0 non-empty case
is unreachable from `set_evolution_order`). -/
def order_loop : ℕ → List Layer → Except NetworkError (List Layer)
  | _, [] => .ok []
  | 0, _ => .error .cannotResolveOrder
  | fuel + 1, remaining =>
    match find_next_layer remaining remaining with
    | .error e => .error e
    | .ok next =>
      match order_loop fuel (remaining.erase next) with
      | .error e => .error e
      | .ok rest => .ok (next :: rest)

/-- `_set_evolution_order` of network.py: a linear order over the layer
set in which every layer appears after its predecessor, or a
`NetworkError` when none exists. -/
def set_evolution_order (layers : List Layer) : Except NetworkError (List Layer) :=
  order_loop layers.length layers

/-- `connect(pre_layer, post_layer)` of network.py: validate dimensions
and input/output types, set the target's predecessor, recompute the
evolution order, and on failure of that recomputation roll the
predecessor back to `None` and re-raise.  The first component is the
network as the method leaves it (also when it raises). -/
def connect (net : Network) (pre_layer post_layer : Layer) :
    Network × Option NetworkError :=
  if pre_layer.size ≠ post_layer.size_in then
    (net, some (.dimensionMismatch pre_layer.name post_layer.name
      pre_layer.size post_layer.size_in))
  else if pre_layer.output_type ≠ post_layer.input_type then
    (net, some (.typeMismatch pre_layer.name post_layer.name
      pre_layer.output_type post_layer.input_type))
  else
    let layers1 := net.layers.map fun l =>
      if l.name = post_layer.name then { l with pre_layer := some pre_layer.name } else l
    match set_evolution_order layers1 with
    | .ok order => ({ net with layers := order }, none)
    | .error e =>
      ({ net with layers := net.layers.map fun l =>
          if l.name = post_layer.name then { l with pre_layer := none } else l },
       some e)

/-- `remove_layer(del_layer)` of network.py: clear every predecessor
pointer that references the layer, remove it from the inventory
(`KeyError` when absent, after the pointers were already cleared), then
`self._dt = self._set_dt()` — and `_set_dt` returns `None` on every
path, so `_dt` is assigned `None` — and recompute the evolution
order. -/
def remove_layer (net : Network) (del_layer : Layer) :
    Network × Option NetworkError :=
  let cleared := net.layers.map fun l =>
    if l.pre_layer = some del_layer.name then { l with pre_layer := none } else l
  if cleared.all fun l => l.name ≠ del_layer.name then
    ({ net with layers := cleared }, some (.layerNotInNetwork del_layer.name))
  else
    let net1 : Network :=
      { net with layers := cleared.filter fun l => l.name ≠ del_layer.name }
    match set_dt net1 with
    | .error e => (net1, some e)
    | .ok net2 =>
      let net3 : Network := { net2 with dt := none }
      match set_evolution_order net3.layers with
      | .error e => (net3, some e)
      | .ok order => ({ net3 with layers := order }, none)

/-- `_new_name(name)`: if the name ends in `_<int>`, increment the
integer, else append `_0`. -/
def new_name (name : String) : String :=
  let parts := name.splitOn "_"
  if parts.length > 1 then
    match (parts.getLastD "").toNat? with
    | some i => String.intercalate "_" (parts.dropLast ++ [toString (i + 1)])
    | none => name ++ "_0"
  else name ++ "_0"

/-- The `while hasattr(self, newname)` rename loop of `add_layer`, with
fuel: each pass strictly increments the candidate's numeric suffix, so
`|taken| + 1` passes suffice to escape the finitely many taken names
(the fuel-0 case is unreachable from `add_layer`).  Python's `hasattr`
also sees the Network's own attributes; only layer names are modelled. -/
def rename_until_free (taken : List String) : ℕ → String → String
  | 0, name => name
  | fuel + 1, name =>
    if taken.contains name then rename_until_free taken fuel (new_name name)
    else name

/-- `add_layer(lyr, input_layer, output_layer, external_input)` of
network.py: assert the layer's time matches the network's, rename on
name collision (the early return for re-adding the very same object is
not modelled: layers are identified by name), register the layer, update
the global dt, wire the requested connections, and recompute the
evolution order when no wiring was requested. -/
def add_layer (net : Network) (lyr : Layer)
    (input_layer output_layer : Option Layer) (external_input : Bool) :
    Network × Option NetworkError :=
  if ! np_isclose lyr.t net.t then
    (net, some (.layerTimeMismatch net.t lyr.t))
  else
    let taken := net.layers.map fun l => l.name
    let lyr1 : Layer :=
      { lyr with
        name := rename_until_free taken (taken.length + 1) lyr.name,
        pre_layer := none,
        external_input := external_input }
    let net1 : Network := { net with layers := net.layers ++ [lyr1] }
    match set_dt net1 with
    | .error e => (net1, some e)
    | .ok net2 =>
      match input_layer, output_layer with
      | none, none =>
        match set_evolution_order net2.layers with
        | .error e => (net2, some e)
        | .ok order => ({ net2 with layers := order }, none)
      | _, _ =>
        let step1 : Network × Option NetworkError :=
          match input_layer with
          | some il => connect net2 il lyr1
          | none => (net2, none)
        match step1 with
        | (net3, some e) => (net3, some e)
        | (net3, none) =>
          match output_layer with
          | some ol => connect net3 lyr1 ol
          | none => (net3, none)

/-- The `for lyr in layers[1:]` loop of `Network.__init__`: add each
further layer with the previously added one as its input layer.  (Name
collisions inside the constructor's list, which would rename the object
`recent_layer` points at, are not exercised by any claim.) -/
def add_layers_chain : Network → Layer → List Layer → Network × Option NetworkError
  | net, _, [] => (net, none)
  | net, recent, lyr :: rest =>
    match add_layer net lyr (some recent) none false with
    | (net', some e) => (net', some e)
    | (net', none) => add_layers_chain net' lyr rest

/-- `Network.__init__(*layers, dt=None)`: with a forced dt assert it is
positive; the first layer is added flagged as receiving external input,
each later layer is connected to the previous one. -/
def Network.init (lyrs : List Layer) (dtForced : Option ℚ) :
    Network × Option NetworkError :=
  let base : Network :=
    { layers := [], timestep := 0, dt := dtForced, force_dt := dtForced.isSome }
  match dtForced with
  | some d =>
    if d ≤ 0 then (base, some .dtNotPositive)
    else
      match lyrs with
      | [] => (base, none)
      | first :: rest =>
        match add_layer base first none none true with
        | (net', some e) => (net', some e)
        | (net', none) => add_layers_chain net' first rest
  | none =>
    match lyrs with
    | [] => (base, none)
    | first :: rest =>
      match add_layer base first none none true with
      | (net', some e) => (net', some e)
      | (net', none) => add_layers_chain net' first rest

/-- `_check_sync` of network.py: every layer's `_timestep` must equal
`network._timestep * lyr._timesteps_per_network_dt`, else a
`NetworkError` is raised (the source first collects and prints every
offender, then raises once). -/
def check_sync (net : Network) : Except NetworkError Unit :=
  if net.layers.all fun lyr =>
      lyr.timestep == net.timestep * lyr.timesteps_per_network_dt then
    .ok ()
  else .error .notInSync

/-- The per-layer loop of `evolve`, parameterised over the external
layer-evolution behaviour `f` (each layer's own `evolve`, an opaque
external collaborator returning the advanced layer and its output
signal of type `σ`).  Each layer receives the external input when
flagged, else its predecessor's freshly recorded output from the signal
dict (a missing key is Python's `KeyError`), else no input, and is
evolved for `num_timesteps * lyr._timesteps_per_network_dt` of its own
steps; its output is recorded under its name.  (The propagation of
`trial_starts` metadata and default naming of output series are carried
inside `σ` and not modelled.) -/
def evolve_layers {σ : Type} (f : Layer → Option σ → ℕ → Layer × σ) :
    List Layer → List (String × Option σ) → Option σ → ℕ →
    Except NetworkError (List Layer × List (String × Option σ))
  | [], sigs, _, _ => .ok ([], sigs)
  | lyr :: rest, sigs, ts_input, n =>
    let input : Except NetworkError (Option σ) :=
      if lyr.external_input then .ok ts_input
      else
        match lyr.pre_layer with
        | some p =>
          match sigs.lookup p with
          | some v => .ok v
          | none => .error (.missingSignal p)
        | none => .ok none
    match input with
    | .error e => .error e
    | .ok inp =>
      let res := f lyr inp (n * lyr.timesteps_per_network_dt)
      match evolve_layers f rest (sigs ++ [(lyr.name, some res.2)]) ts_input n with
      | .error e => .error e
      | .ok (lyrs, sigs') => .ok (res.1 :: lyrs, sigs')

/-- `evolve(ts_input, num_timesteps)` of network.py: check synchrony,
evolve every layer in evolution order routing each one's input, advance
the network's `_timestep` by `num_timesteps`, and check synchrony again;
return the signal dict (initially holding the external input under
"external").  The prelude that resolves `num_timesteps` from `duration`
or the input series (source lines 506–525) only computes this argument
and is not modelled. -/
def evolve {σ : Type} (f : Layer → Option σ → ℕ → Layer × σ) (net : Network)
    (ts_input : Option σ) (num_timesteps : ℕ) :
    Except NetworkError (Network × List (String × Option σ)) :=
  match check_sync net with
  | .error e => .error e
  | .ok _ =>
    match evolve_layers f net.layers [("external", ts_input)] ts_input num_timesteps with
    | .error e => .error e
    | .ok (lyrs, sigs) =>
      let net' : Network :=
        { net with layers := lyrs, timestep := net.timestep + num_timesteps }
      match check_sync net' with
      | .error e => .error e
      | .ok _ => .ok (net', sigs)

/-- `reset_all` of network.py: reset every member layer, then zero the
network's `_timestep`. -/
def Network.reset_all (net : Network) : Network :=
  { net with layers := net.layers.map Layer.reset_all, timestep := 0 }

/-- `np.where(np.cumsum(v) > n)[0][0]` as `train` uses it: the first
index at which the running sum of `v` exceeds `n` (only evaluated when
the total sum exceeds `n`, so the fall-through value is unreachable). -/
def first_idx_beyond_from (n : ℕ) : ℕ → ℕ → List ℕ → ℕ
  | _, i, [] => i
  | acc, i, x :: xs =>
    if n < acc + x then i else first_idx_beyond_from n (acc + x) (i + 1) xs

/-- `np.where(np.cumsum(v) > n)[0][0]`. -/
def first_idx_beyond (v : List ℕ) (n : ℕ) : ℕ :=
  first_idx_beyond_from n 0 0 v

/-- The scalar batch-size path of `train`: `num_batches =
ceil(num_timesteps / s)` batches of `s` steps, the last overwritten with
`num_timesteps - sum(v[:-1])`.  (For `num_timesteps = 0` the source's
`v_ts_batch[-1]` assignment is an `IndexError`; that case is modelled as
the empty list and exercised by no claim.) -/
def uniform_batches (num_timesteps s : ℕ) : List ℕ :=
  match (⌈(num_timesteps : ℚ) / (s : ℚ)⌉).toNat with
  | 0 => []
  | k => List.replicate (k - 1) s ++ [num_timesteps - s * (k - 1)]

/-- The `diff_ts` fix-up block of `train`: append the shortfall when the
batches sum below `num_timesteps`; when they sum above it, truncate at
the first index whose running sum exceeds it — the source's trailing
comment `# - Correct last value` is followed by no statement, so the
last kept batch is NOT clipped. -/
def fix_batches (num_timesteps : ℕ) (v : List ℕ) : List ℕ :=
  if v.sum < num_timesteps then v ++ [num_timesteps - v.sum]
  else if num_timesteps < v.sum then v.take (first_idx_beyond v num_timesteps + 1)
  else v

/-- The batch-sizing logic of `train` (source lines 653–691): the
per-batch step counts derived from `batch_durs` (durations) or
`nums_ts_batch` (step counts), a singleton standing for numpy's scalar
(`np.size(x) == 1`), then the `diff_ts` fix-up. -/
def compute_batches (dt : ℚ) (num_timesteps : ℕ)
    (batch_durs : Option (List ℚ)) (nums_ts_batch : Option (List ℕ)) : List ℕ :=
  let v : List ℕ :=
    match nums_ts_batch with
    | none =>
      match batch_durs with
      | none => [num_timesteps]
      | some [d] => uniform_batches num_timesteps (⌊d / dt⌋).toNat
      | some durs => durs.map fun d => (⌊d / dt⌋).toNat
    | some [s] => uniform_batches num_timesteps s
    | some l => l
  fix_batches num_timesteps v

/-- The batch loop of `train` (source lines 727–732): one
`training_fct(self, signal_dict, batch_num == 0, batch_num ==
num_batches - 1)` call per entry of `v_ts_batch`, recorded as its
`(is_first, is_last)` argument pair. -/
def train_calls (v_ts_batch : List ℕ) : List (Bool × Bool) :=
  (List.range v_ts_batch.length).map fun batch_num =>
    (batch_num == 0, batch_num == v_ts_batch.length - 1)

/-- Layer A of the two-layer scenario (spec §8): dt 0.1, size_in 2,
size 3, flagged to receive external input once added first. -/
def lyrA : Layer :=
  { name := "A", size_in := 2, size := 3, dt := 1 / 10, timestep := 0,
    input_type := 0, output_type := 0, pre_layer := none,
    external_input := false, timesteps_per_network_dt := 1 }

/-- Layer B of the two-layer scenario (spec §8): dt 0.02, size_in 3,
size 1. -/
def lyrB : Layer :=
  { name := "B", size_in := 3, size := 1, dt := 1 / 50, timestep := 0,
    input_type := 0, output_type := 0, pre_layer := none,
    external_input := false, timesteps_per_network_dt := 1 }

/-- The two-layer network `Network(lyrA, lyrB)` of the scenario. -/
def netAB : Network := (Network.init [lyrA, lyrB] none).1

/-- The external layer-evolution behaviour the Layer capability contract
promises (spec §6): `evolve(.., num_timesteps, ..)` advances the layer
by `num_timesteps` of its own steps; its output signal here records the
`num_timesteps` argument it was invoked with. -/
def layerAdvance : Layer → Option ℕ → ℕ → Layer × ℕ :=
  fun lyr _ n => ({ lyr with timestep := lyr.timestep + n }, n)

/-- A layer that mis-reports its own clock: its `evolve` does not
advance `_timestep` at all. -/
def layerStuck : Layer → Option ℕ → ℕ → Layer × ℕ :=
  fun lyr _ n => (lyr, n)

/-- A standalone source layer "B" (size 1 → 1, matching tags) for the
connect rollback scenario. -/
def lyrP : Layer :=
  { name := "B", size_in := 1, size := 1, dt := 1 / 10, timestep := 0,
    input_type := 0, output_type := 0, pre_layer := none,
    external_input := true, timesteps_per_network_dt := 1 }

/-- A layer "C" already receiving input from "B" (size 1 → 1, matching
tags), so that `connect` may later overwrite its predecessor. -/
def lyrC : Layer :=
  { name := "C", size_in := 1, size := 1, dt := 1 / 10, timestep := 0,
    input_type := 0, output_type := 0, pre_layer := some "B",
    external_input := false, timesteps_per_network_dt := 1 }

/-- A network holding "B" → "C" (predecessor already set), global dt
0.1. -/
def netBC : Network :=
  { layers := [lyrP, lyrC], timestep := 0, dt := some (1 / 10), force_dt := false }

/-- The network `set_dt` leaves behind on `netAB` (used to instantiate
`set_dt` facts at a concrete input). -/
def netABdt : Network := (set_dt netAB).toOption.getD netAB

/-- A layer whose `input_type` tag (1) differs from `lyrA`'s
`output_type` tag (0), for the mismatch scenario; its width matches. -/
def lyrD : Layer :=
  { name := "D", size_in := 3, size := 1, dt := 1 / 10, timestep := 0,
    input_type := 1, output_type := 1, pre_layer := none,
    external_input := false, timesteps_per_network_dt := 1 }

/-- The network `remove_layer` leaves behind after removing `lyrB` from
the two-layer network. -/
def netABremoved : Network := (remove_layer netAB lyrB).1

/-- What recomputing `_set_dt` on the remaining layers would give. -/
def netABrecomputed : Network := (set_dt netABremoved).toOption.getD netABremoved

/-- The result of `evolve(num_timesteps=2)` on the two-layer network,
under the contractual layer behaviour. -/
def evolveABres : Network × List (String × Option ℕ) :=
  (evolve layerAdvance netAB (some 0) 2).toOption.getD (netAB, [])

/-- The network state after `evolve(num_timesteps=2)` on `netAB`. -/
def netAB2 : Network := evolveABres.1

/-- The signal dict of that evolution. -/
def sigsAB2 : List (String × Option ℕ) := evolveABres.2

/-! Theorems.  First the facts about the Euclidean helpers, then the
claims about the scheduler. -/

lemma gcdFuel_irrel : ∀ fuel fuel' a b, b < fuel → b < fuel' →
    gcdFuel fuel a b = gcdFuel fuel' a b := by
  intro fuel
  induction fuel using Nat.strong_induction_on with
  | _ fuel ih =>
    intro fuel' a b hb hb'
    match fuel, fuel', hb, hb' with
    | f + 1, f' + 1, hb, hb' =>
      simp only [gcdFuel]
      by_cases h : b = 0
      · simp [h]
      · simp only [h, if_false]
        have hmod : a % b < b := Nat.mod_lt _ (Nat.pos_of_ne_zero h)
        exact ih f (Nat.lt_succ_self f) f' b (a % b) (by omega) (by omega)

/-- `gcd` satisfies the source's recursion verbatim. -/
lemma gcd_eq_rec (a b : ℕ) : gcd a b = if b = 0 then a else gcd b (a % b) := by
  by_cases h : b = 0
  · simp [gcd, gcdFuel, h]
  · simp only [h, if_false, gcd, gcdFuel]
    have hmod : a % b < b := Nat.mod_lt _ (Nat.pos_of_ne_zero h)
    exact gcdFuel_irrel b (a % b + 1) b (a % b) hmod (Nat.lt_succ_self _)

/-- The source's Euclidean recursion computes the mathematical gcd. -/
lemma gcd_eq_natGcd (a b : ℕ) : gcd a b = Nat.gcd a b := by
  induction b using Nat.strong_induction_on generalizing a with
  | _ b ih =>
    rw [gcd_eq_rec]
    by_cases h : b = 0
    · simp [h]
    · have hmod : a % b < b := Nat.mod_lt _ (Nat.pos_of_ne_zero h)
      rw [if_neg h, ih (a % b) hmod b]
      rw [Nat.gcd_comm b (a % b), ← Nat.gcd_rec b a, Nat.gcd_comm b a]

/-- On a common decimal grid with ulp `u`, the `Decimal` remainder is
the scaled integer remainder. -/
lemma decMod_grid (m n : ℕ) (u : ℚ) (hu : u ≠ 0) (hn : n ≠ 0) :
    decMod ((m : ℚ) * u) ((n : ℚ) * u) = ((m % n : ℕ) : ℚ) * u := by
  unfold decMod
  have hn' : ((n : ℚ)) ≠ 0 := Nat.cast_ne_zero.mpr hn
  have h1 : (m : ℚ) * u / ((n : ℚ) * u) = (m : ℚ) / (n : ℚ) := by
    rw [mul_div_mul_right _ _ hu]
  have hfloor : (⌊(m : ℚ) / (n : ℚ)⌋ : ℚ) = ((m / n : ℕ) : ℚ) := by
    rw [Rat.floor_natCast_div_natCast m n]
    norm_cast
  rw [h1, hfloor]
  have hm : (m : ℚ) = ((m % n : ℕ) : ℚ) + (n : ℚ) * ((m / n : ℕ) : ℚ) := by
    exact_mod_cast congrArg (Nat.cast : ℕ → ℚ) (Nat.mod_add_div m n).symm
  linear_combination u * hm

/-- On a common decimal grid the source's `Decimal` gcd recursion runs
the integer Euclidean algorithm: with any fuel exceeding the second
coordinate it returns `gcd m n` scaled back to the grid. -/
lemma gcdDecFuel_grid (u : ℚ) (hu : 0 < u) :
    ∀ fuel (m n : ℕ), n < fuel →
      gcdDecFuel fuel ((m : ℚ) * u) ((n : ℚ) * u) = some ((gcd m n : ℚ) * u) := by
  intro fuel
  induction fuel using Nat.strong_induction_on with
  | _ fuel ih =>
    intro m n hn
    match fuel, hn with
    | f + 1, hn =>
      simp only [gcdDecFuel]
      by_cases h : n = 0
      · subst h
        simp [gcd, gcdFuel]
      · have hne : (n : ℚ) * u ≠ 0 :=
          mul_ne_zero (Nat.cast_ne_zero.mpr h) (ne_of_gt hu)
        rw [if_neg hne, decMod_grid m n u (ne_of_gt hu) h]
        have hmod : m % n < n := Nat.mod_lt _ (Nat.pos_of_ne_zero h)
        rw [ih f (Nat.lt_succ_self f) n (m % n) (by omega)]
        rw [gcd_eq_rec m n, if_neg h]

/-- C10: the recursive `gcd` helper terminates on every pair of
nonnegative finite-precision decimals — written `m·u`, `n·u` on a grid
with a common decimal ulp `u > 0`, the recursion depth is bounded by the
second coordinate, so fuel `n + 1` always suffices — and its result
exactly divides both inputs. -/
theorem gcd_terminates_and_divides (u : ℚ) (m n : ℕ) (hu : 0 < u) :
    ∃ g, gcdDecFuel (n + 1) ((m : ℚ) * u) ((n : ℚ) * u) = some g ∧
      (∃ j : ℕ, (j : ℚ) * g = (m : ℚ) * u) ∧
      (∃ k : ℕ, (k : ℚ) * g = (n : ℚ) * u) := by
  refine ⟨(gcd m n : ℚ) * u,
    gcdDecFuel_grid u hu (n + 1) m n (Nat.lt_succ_self n), ?_, ?_⟩
  · obtain ⟨j, hj⟩ : gcd m n ∣ m := gcd_eq_natGcd m n ▸ Nat.gcd_dvd_left m n
    refine ⟨j, ?_⟩
    have hq : (m : ℚ) = (gcd m n : ℚ) * (j : ℚ) := by exact_mod_cast hj
    rw [hq]
    ring
  · obtain ⟨k, hk⟩ : gcd m n ∣ n := gcd_eq_natGcd m n ▸ Nat.gcd_dvd_right m n
    refine ⟨k, ?_⟩
    have hq : (n : ℚ) = (gcd m n : ℚ) * (k : ℚ) := by exact_mod_cast hk
    rw [hq]
    ring

/-- C2: with dt not forced and at least one layer, whenever `_set_dt`
installs a value `D` (rather than raising), `D` satisfies
`is_multiple(D, dt_i)` for every layer and `D ≤ 100 * max(dt_i)`
(`max_factor = 100` is the default); and whenever the folded lcm
exceeds that bound or fails the exact-multiple check against any layer
dt, `_set_dt` raises instead of installing the value. -/
theorem set_dt_spec (net : Network) (d0 : ℚ) (ds : List ℚ)
    (hforce : net.force_dt = false)
    (hdts : net.layers.map (fun lyr => lyr.dt) = d0 :: ds) :
    (∀ net', set_dt net = .ok net' →
      ∃ D, net'.dt = some D ∧
        (∀ lyr ∈ net.layers, is_multiple D lyr.dt = true) ∧
        D ≤ 100 * np_amax (net.layers.map fun lyr => lyr.dt)) ∧
    (∀ t_lcm, fold_lcm d0 ds = .ok t_lcm →
      (100 * np_amax (net.layers.map fun lyr => lyr.dt) < t_lcm ∨
        ∃ lyr ∈ net.layers, is_multiple t_lcm lyr.dt = false) →
      ∃ e, set_dt net = .error e) := by
  have hmain : set_dt net =
      match fold_lcm d0 ds with
      | .error e => .error e
      | .ok t_lcm =>
        if 100 * np_amax (d0 :: ds) < t_lcm ∨
            (d0 :: ds).any (fun dt => ! is_multiple t_lcm dt) then
          .error .noCommonTimestep
        else
          .ok { net with dt := some t_lcm, layers := update_ratios net.layers t_lcm } := by
    unfold set_dt
    rw [hdts]
    simp [hforce]
  rw [hdts]
  cases hfold : fold_lcm d0 ds with
  | error e =>
    rw [hfold] at hmain
    dsimp only at hmain
    constructor
    · intro net' hok
      rw [hmain] at hok
      cases hok
    · intro t_lcm ht
      cases ht
  | ok t_lcm =>
    rw [hfold] at hmain
    dsimp only at hmain
    by_cases hguard : 100 * np_amax (d0 :: ds) < t_lcm ∨
        (d0 :: ds).any (fun dt => ! is_multiple t_lcm dt)
    · rw [if_pos hguard] at hmain
      constructor
      · intro net' hok
        rw [hmain] at hok
        cases hok
      · intro _ _ _
        exact ⟨.noCommonTimestep, hmain⟩
    · rw [if_neg hguard] at hmain
      have hnot := not_or.mp hguard
      have hbound : t_lcm ≤ 100 * np_amax (d0 :: ds) := le_of_not_lt hnot.1
      have hall : ∀ dt ∈ d0 :: ds, is_multiple t_lcm dt = true := by
        intro dt hdt
        by_contra hne
        exact hnot.2 (List.any_eq_true.mpr
          ⟨dt, hdt, by simp [Bool.not_eq_true] at hne ⊢; exact hne⟩)
      constructor
      · intro net' hok
        rw [hmain] at hok
        injection hok with hok
        refine ⟨t_lcm, by rw [← hok], ?_, ?_⟩
        · intro lyr hl
          exact hall lyr.dt (hdts ▸ List.mem_map_of_mem _ hl)
        · exact hbound
      · intro t ht hbad
        injection ht with ht
        subst ht
        rcases hbad with hb | ⟨lyr, hl, hmul⟩
        · exact absurd hb hnot.1
        · exact absurd (hall lyr.dt (hdts ▸ List.mem_map_of_mem _ hl))
            (by simp [hmul])

lemma find_next_ok {remaining cands : List Layer} {c : Layer}
    (h : find_next_layer remaining cands = .ok c) :
    c ∈ cands ∧ preIn c remaining = false := by
  induction cands with
  | nil => cases h
  | cons x xs ih =>
    unfold find_next_layer at h
    split at h
    · obtain ⟨hm, hp⟩ := ih h
      exact ⟨List.mem_cons_of_mem _ hm, hp⟩
    · injection h with h
      subst h
      rename_i hx
      exact ⟨List.mem_cons_self _ _, by simpa using hx⟩

lemma find_next_err {remaining cands : List Layer} {e : NetworkError}
    (h : find_next_layer remaining cands = .error e) :
    (∀ c ∈ cands, preIn c remaining = true) ∧ e = .cannotResolveOrder := by
  induction cands with
  | nil =>
    unfold find_next_layer at h
    injection h with h
    exact ⟨by simp, h.symm⟩
  | cons x xs ih =>
    unfold find_next_layer at h
    split at h
    · obtain ⟨hall, he⟩ := ih h
      rename_i hx
      refine ⟨?_, he⟩
      intro c hc
      rcases List.mem_cons.mp hc with rfl | hc
      · exact hx
      · exact hall c hc
    · cases h

/-- A nonempty list has a member of minimal rank. -/
lemma exists_min_rank (rank : String → ℕ) :
    ∀ l : List Layer, l ≠ [] → ∃ x ∈ l, ∀ y ∈ l, rank x.name ≤ rank y.name := by
  intro l
  induction l with
  | nil => simp
  | cons a t ih =>
    intro _
    by_cases ht : t = []
    · subst ht
      exact ⟨a, List.mem_cons_self _ _, by simp⟩
    · obtain ⟨x, hx, hmin⟩ := ih ht
      by_cases hc : rank a.name ≤ rank x.name
      · refine ⟨a, List.mem_cons_self _ _, ?_⟩
        intro y hy
        rcases List.mem_cons.mp hy with rfl | hy
        · exact le_refl _
        · exact le_trans hc (hmin y hy)
      · refine ⟨x, List.mem_cons_of_mem _ hx, ?_⟩
        intro y hy
        rcases List.mem_cons.mp hy with rfl | hy
        · exact le_of_lt (lt_of_not_le hc)
        · exact hmin y hy

/-- A member of a nonempty closed-under-predecessor set is never
emitted: `order_loop` must end in the resolver's error. -/
lemma order_loop_cycle (S : List Layer) (hS : S ≠ [])
    (hcyc : ∀ x ∈ S, ∃ p ∈ S, x.pre_layer = some p.name) :
    ∀ fuel remaining, (∀ x ∈ S, x ∈ remaining) →
      order_loop fuel remaining = .error .cannotResolveOrder := by
  intro fuel
  induction fuel with
  | zero =>
    intro remaining hsub
    obtain ⟨x0, hx0⟩ := List.exists_mem_of_ne_nil S hS
    cases remaining with
    | nil => exact absurd (hsub x0 hx0) (List.not_mem_nil _)
    | cons a l => rfl
  | succ f ih =>
    intro remaining hsub
    obtain ⟨x0, hx0⟩ := List.exists_mem_of_ne_nil S hS
    cases remaining with
    | nil => exact absurd (hsub x0 hx0) (List.not_mem_nil _)
    | cons a l =>
      cases hf : find_next_layer (a :: l) (a :: l) with
      | error e =>
        have he := (find_next_err hf).2
        subst he
        simp [order_loop, hf]
      | ok next =>
        obtain ⟨hmem, helig⟩ := find_next_ok hf
        have hnextS : next ∉ S := by
          intro hin
          obtain ⟨p, hpS, hpre⟩ := hcyc next hin
          have htrue : preIn next (a :: l) = true := by
            unfold preIn
            rw [hpre]
            exact List.any_eq_true.mpr ⟨p, hsub p hpS, by simp⟩
          rw [helig] at htrue
          cases htrue
        have hsub2 : ∀ x ∈ S, x ∈ (a :: l).erase next := by
          intro x hx
          exact (List.mem_erase_of_ne fun he => hnextS (by rw [← he]; exact hx)).mpr
            (hsub x hx)
        have hrec := ih ((a :: l).erase next) hsub2
        simp [order_loop, hf, hrec]

/-- A list member at an index past `i` lies in `drop i`. -/
lemma get_mem_drop {α : Type} (l : List α) (i j : ℕ) (hj : j < l.length)
    (hij : i ≤ j) : l.get ⟨j, hj⟩ ∈ l.drop i := by
  have hlen : j - i < (l.drop i).length := by
    simp only [List.length_drop]
    omega
  have hget : (l.drop i).get ⟨j - i, hlen⟩ = l.get ⟨j, hj⟩ := by
    simp only [List.get_eq_getElem, List.getElem_drop]
    congr 1
    omega
  rw [← hget]
  exact List.get_mem _ _ _

/-- With a rank certificate for acyclicity, `order_loop` succeeds on any
subset of the layer set and emits a permutation in which no layer's
predecessor name occurs at or after the layer's own position. -/
lemma order_loop_acyclic (L : List Layer) (rank : String → ℕ)
    (hrank : ∀ lyr ∈ L, ∀ q ∈ L,
      lyr.pre_layer = some q.name → rank q.name < rank lyr.name) :
    ∀ fuel remaining, remaining.length ≤ fuel → (∀ x ∈ remaining, x ∈ L) →
      ∃ order, order_loop fuel remaining = .ok order ∧ order.Perm remaining ∧
        ∀ i, ∀ hi : i < order.length, ∀ p,
          (order.get ⟨i, hi⟩).pre_layer = some p →
          ∀ x ∈ order.drop i, x.name ≠ p := by
  intro fuel
  induction fuel with
  | zero =>
    intro remaining hlen _
    have hnil : remaining = [] :=
      List.eq_nil_of_length_eq_zero (Nat.le_zero.mp hlen)
    subst hnil
    exact ⟨[], rfl, List.Perm.refl _, by simp⟩
  | succ f ih =>
    intro remaining hlen hsub
    cases remaining with
    | nil => exact ⟨[], rfl, List.Perm.refl _, by simp⟩
    | cons a l =>
      obtain ⟨x, hxmem, hxmin⟩ := exists_min_rank rank (a :: l) (by simp)
      have helig : preIn x (a :: l) = false := by
        cases hp : x.pre_layer with
        | none => simp [preIn, hp]
        | some p =>
          by_contra hb
          have htrue : preIn x (a :: l) = true := by
            simpa [Bool.not_eq_false] using hb
          unfold preIn at htrue
          rw [hp] at htrue
          obtain ⟨q, hq, hqe⟩ := List.any_eq_true.mp htrue
          have hqp : q.name = p := by simpa using hqe
          have hlt := hrank x (hsub x hxmem) q (hsub q hq) (by rw [hp, hqp])
          exact absurd (hxmin q hq) (not_le_of_lt hlt)
      obtain ⟨next, hnext⟩ : ∃ c, find_next_layer (a :: l) (a :: l) = .ok c := by
        cases hf : find_next_layer (a :: l) (a :: l) with
        | ok c => exact ⟨c, rfl⟩
        | error e =>
          have hall := (find_next_err hf).1
          rw [hall x hxmem] at helig
          cases helig
      obtain ⟨hmem, hpre⟩ := find_next_ok hnext
      have hlen2 : ((a :: l).erase next).length ≤ f := by
        rw [List.length_erase_of_mem hmem]
        simpa using Nat.le_of_succ_le_succ hlen
      have hsub2 : ∀ y ∈ (a :: l).erase next, y ∈ L :=
        fun y hy => hsub y (List.mem_of_mem_erase hy)
      obtain ⟨rest, hrec, hperm, hdrop⟩ := ih ((a :: l).erase next) hlen2 hsub2
      refine ⟨next :: rest, ?_, ?_, ?_⟩
      · simp [order_loop, hnext, hrec]
      · exact (hperm.cons next).trans (List.perm_cons_erase hmem).symm
      · intro i hi p hp y hy
        cases i with
        | zero =>
          have hpnext : next.pre_layer = some p := by simpa using hp
          have hnone : ∀ z ∈ a :: l, z.name ≠ p := by
            intro z hz he
            have htrue : preIn next (a :: l) = true := by
              unfold preIn
              rw [hpnext]
              exact List.any_eq_true.mpr ⟨z, hz, by simp [he]⟩
            rw [hpre] at htrue
            cases htrue
          have hyal : y ∈ a :: l := by
            have hyor : y ∈ next :: rest := by simpa using hy
            rcases List.mem_cons.mp hyor with rfl | hyr
            · exact hmem
            · exact List.mem_of_mem_erase (hperm.mem_iff.mp hyr)
          exact hnone y hyal
        | succ j =>
          exact hdrop j (by simpa using hi) p (by simpa using hp) y
            (by simpa using hy)

/-- C3: for every configuration of the layer set that is closed (each
non-null predecessor names a member) and acyclic (certified by a rank
function decreasing along predecessor edges), `_set_evolution_order`
returns a permutation of all layers in which every layer with a
non-null predecessor appears strictly after that predecessor; and when
the predecessor relation contains a cycle — a nonempty subset of the
set each of whose members' predecessor lies again in the subset —
it raises a `NetworkError` instead of looping. -/
theorem set_evolution_order_spec (L : List Layer) :
    ((∀ lyr ∈ L, lyr.pre_layer = none ∨ ∃ q ∈ L, lyr.pre_layer = some q.name) →
     (∃ rank : String → ℕ, ∀ lyr ∈ L, ∀ q ∈ L,
        lyr.pre_layer = some q.name → rank q.name < rank lyr.name) →
     ∃ order, set_evolution_order L = .ok order ∧ order.Perm L ∧
       ∀ i, ∀ hi : i < order.length, ∀ p,
         (order.get ⟨i, hi⟩).pre_layer = some p →
         ∃ j, ∃ hj : j < order.length, j < i ∧ (order.get ⟨j, hj⟩).name = p) ∧
    ((∃ S : List Layer, S ≠ [] ∧ (∀ x ∈ S, x ∈ L) ∧
       ∀ x ∈ S, ∃ p ∈ S, x.pre_layer = some p.name) →
     set_evolution_order L = .error .cannotResolveOrder) := by
  constructor
  · rintro hclosed ⟨rank, hrank⟩
    obtain ⟨order, hok, hperm, hdrop⟩ :=
      order_loop_acyclic L rank hrank L.length L le_rfl (fun _ h => h)
    refine ⟨order, hok, hperm, ?_⟩
    intro i hi p hp
    have hmemL : order.get ⟨i, hi⟩ ∈ L := hperm.subset (List.get_mem _ _ _)
    rcases hclosed _ hmemL with h0 | ⟨q, hqL, hqp⟩
    · rw [h0] at hp
      cases hp
    · have hqname : q.name = p := by
        rw [hp] at hqp
        injection hqp with h
        exact h.symm
      have hqorder : q ∈ order := hperm.mem_iff.mpr hqL
      obtain ⟨⟨j, hj⟩, hje⟩ := List.mem_iff_get.mp hqorder
      refine ⟨j, hj, ?_, by rw [hje, hqname]⟩
      by_contra hge
      push_neg at hge
      have hqdrop : q ∈ order.drop i := by
        rw [← hje]
        exact get_mem_drop order i j hj hge
      exact hdrop i hi p hp q hqdrop hqname
  · rintro ⟨S, hS, hsubL, hcyc⟩
    exact order_loop_cycle S hS hcyc L.length L hsubL

lemma check_sync_ok_iff (m : Network) :
    check_sync m = .ok () ↔
      ∀ lyr ∈ m.layers,
        lyr.timestep = m.timestep * lyr.timesteps_per_network_dt := by
  unfold check_sync
  by_cases hall : m.layers.all
      (fun lyr => lyr.timestep == m.timestep * lyr.timesteps_per_network_dt) = true
  · rw [if_pos hall]
    constructor
    · intro _ lyr hl
      simpa using List.all_eq_true.mp hall lyr hl
    · intro _
      rfl
  · rw [if_neg hall]
    constructor
    · intro h
      cases h
    · intro hforall
      exact absurd (List.all_eq_true.mpr fun lyr hl => by
        simpa using hforall lyr hl) hall

lemma check_sync_cases (m : Network) :
    check_sync m = .ok () ∨ check_sync m = .error .notInSync := by
  unfold check_sync
  split
  · exact Or.inl rfl
  · exact Or.inr rfl

lemma check_sync_err {m : Network} {e : NetworkError}
    (h : check_sync m = .error e) : e = .notInSync := by
  rcases check_sync_cases m with h' | h' <;> rw [h'] at h
  · cases h
  · injection h with h
    exact h.symm

/-- C1: after every successful `evolve`, every layer in the evolution
order satisfies `lyr._timestep = network._timestep *
lyr._timesteps_per_network_dt`; and whenever some layer violates that
equality after the layers have been evolved and the network clock
advanced, `evolve` raises the desynchronization error instead of
returning (it never tolerates or corrects the mismatch).  The per-layer
evolution behaviour `f` is arbitrary: the guarantee holds whatever the
layers do. -/
theorem evolve_post_sync {σ : Type} (f : Layer → Option σ → ℕ → Layer × σ)
    (net : Network) (ts_input : Option σ) (n : ℕ) :
    (∀ net' sigs, evolve f net ts_input n = .ok (net', sigs) →
      ∀ lyr ∈ net'.layers,
        lyr.timestep = net'.timestep * lyr.timesteps_per_network_dt) ∧
    (∀ lyrs' sigs',
      evolve_layers f net.layers [("external", ts_input)] ts_input n =
        .ok (lyrs', sigs') →
      (∃ lyr ∈ lyrs',
        lyr.timestep ≠ (net.timestep + n) * lyr.timesteps_per_network_dt) →
      evolve f net ts_input n = .error .notInSync) := by
  constructor
  · intro net' sigs hok
    unfold evolve at hok
    cases h1 : check_sync net with
    | error e =>
      rw [h1] at hok
      cases hok
    | ok u =>
      cases u
      rw [h1] at hok
      cases h2 : evolve_layers f net.layers [("external", ts_input)] ts_input n with
      | error e =>
        rw [h2] at hok
        cases hok
      | ok p =>
        obtain ⟨lyrs, sigs0⟩ := p
        rw [h2] at hok
        dsimp only at hok
        cases h3 : check_sync
            { net with layers := lyrs, timestep := net.timestep + n } with
        | error e =>
          rw [h3] at hok
          cases hok
        | ok u =>
          cases u
          rw [h3] at hok
          injection hok with hok
          injection hok with hnet hsigs
          subst hnet
          exact (check_sync_ok_iff _).mp h3
  · intro lyrs' sigs' hev ⟨lyr, hl, hne⟩
    unfold evolve
    cases h1 : check_sync net with
    | error e =>
      have he := check_sync_err h1
      subst he
      rfl
    | ok u =>
      cases u
      rw [hev]
      dsimp only
      rcases check_sync_cases
          { net with layers := lyrs', timestep := net.timestep + n } with h3 | h3
      · exact absurd ((check_sync_ok_iff _).mp h3 lyr hl) hne
      · rw [h3]

/-- C4 (amended): when `connect` would introduce a cycle — the
recomputation of the evolution order with the new edge fails — the call
raises and leaves every other layer's predecessor unchanged, but it
sets the target's predecessor to `None` rather than restoring its
pre-call value; the predecessor relation is therefore byte-for-byte
identical to the pre-call state only when the target had no predecessor
before the call. -/
theorem connect_cycle_rollback (net : Network) (pre_layer post_layer : Layer)
    (e : NetworkError)
    (hsz : pre_layer.size = post_layer.size_in)
    (hty : pre_layer.output_type = post_layer.input_type)
    (herr : set_evolution_order (net.layers.map fun l =>
        if l.name = post_layer.name then
          { l with pre_layer := some pre_layer.name }
        else l) = .error e) :
    connect net pre_layer post_layer =
      ({ net with layers := net.layers.map fun l =>
          if l.name = post_layer.name then { l with pre_layer := none } else l },
       some e) := by
  unfold connect
  rw [if_neg fun hne => hne hsz, if_neg fun hne => hne hty]
  dsimp only
  rw [herr]

/-- C8: when the source's width does not match the target's input width,
or their output/input type tags differ, `connect` raises a structural
error carrying both layer names and the mismatched attributes, and
performs no mutation at all — the returned network (including the
target's predecessor reference) is exactly the pre-call network. -/
theorem connect_mismatch_spec (net : Network) (pre_layer post_layer : Layer)
    (h : pre_layer.size ≠ post_layer.size_in ∨
      pre_layer.output_type ≠ post_layer.input_type) :
    (connect net pre_layer post_layer).1 = net ∧
    ((connect net pre_layer post_layer).2 =
        some (.dimensionMismatch pre_layer.name post_layer.name
          pre_layer.size post_layer.size_in) ∨
      (connect net pre_layer post_layer).2 =
        some (.typeMismatch pre_layer.name post_layer.name
          pre_layer.output_type post_layer.input_type)) := by
  unfold connect
  by_cases hsz : pre_layer.size = post_layer.size_in
  · have hty : pre_layer.output_type ≠ post_layer.input_type := by tauto
    rw [if_neg fun hne => hne hsz, if_pos hty]
    exact ⟨rfl, Or.inr rfl⟩
  · rw [if_pos hsz]
    exact ⟨rfl, Or.inl rfl⟩

/-- C9: `reset_all` is idempotent — a second call changes nothing —
and after it the network's global timestep counter is 0 and every
member layer reports `t = 0`. -/
theorem reset_all_idempotent (net : Network) :
    net.reset_all.reset_all = net.reset_all ∧
    net.reset_all.timestep = 0 ∧
    ∀ lyr ∈ net.reset_all.layers, lyr.t = 0 := by
  refine ⟨?_, rfl, ?_⟩
  · unfold Network.reset_all
    simp only [List.map_map]
    rfl
  · intro lyr hl
    unfold Network.reset_all at hl
    obtain ⟨a, _, ha⟩ := List.mem_map.mp hl
    rw [← ha]
    simp [Layer.t, Layer.reset_all]

section ConcreteEvaluation

/- Batteries marks the `Rat` field operations `@[irreducible]`; the
concrete scenarios below are settled by evaluation, so those operations
are made unfoldable for this section only (the kernel is unaffected). -/
set_option allowUnsafeReducibility true
attribute [local semireducible] Rat.add Rat.sub Rat.mul Rat.inv Rat.ofScientific

/-- C4 counterexample: the claim that a cycle-refusing `connect` leaves
the predecessor relation byte-for-byte identical fails on a network
where the target already had a predecessor: with "C" receiving input
from "B", the self-connect `connect(C, C)` passes the dimension and
type checks, fails the evolution-order recomputation, and rolls "C"'s
predecessor back to `None` — erasing the pre-call edge from "B". -/
theorem connect_rollback_not_identical :
    (connect netBC lyrC lyrC).2 = some .cannotResolveOrder ∧
    (netBC.layers.map fun l => (l.name, l.pre_layer)) =
      [("B", none), ("C", some "B")] ∧
    ((connect netBC lyrC lyrC).1.layers.map fun l => (l.name, l.pre_layer)) =
      [("B", none), ("C", none)] := by
  decide

/-- C5 (code bug): `remove_layer` executes `self._dt = self._set_dt()`,
but `_set_dt` returns `None` on every path (it stores the recomputed
value internally), so the recomputed global dt is immediately
overwritten with `None`.  Removing "B" from the two-layer network
succeeds and recomputes the evolution order, yet leaves `dt = None`,
while recomputing `_set_dt` over the remaining layer yields 0.1. -/
theorem remove_layer_dt_clobbered :
    (remove_layer netAB lyrB).2 = none ∧
    (netABremoved.layers.map fun l => l.name) = ["A"] ∧
    netABremoved.dt = none ∧
    set_dt netABremoved = .ok netABrecomputed ∧
    netABrecomputed.dt = some (1 / 10) := by
  decide

/-- C6: for the network of A (dt 0.1) and B (dt 0.02) with A → B and A
flagged external-input, the derived global dt is 0.1 with ratios 1 for
A and 5 for B; `evolve(num_timesteps=2)` invokes A's `evolve` with
`num_timesteps = 2` and B's with 10 (each output signal records the
argument its layer was invoked with), advances the network's timestep
counter by exactly 2, and the post-evolve synchrony check passes with
A at internal timestep 2 and B at 10. -/
theorem two_layer_scenario :
    (Network.init [lyrA, lyrB] none).2 = none ∧
    netAB.dt = some (1 / 10) ∧
    (netAB.layers.map fun l => (l.name, l.timesteps_per_network_dt)) =
      [("A", 1), ("B", 5)] ∧
    evolve layerAdvance netAB (some 0) 2 = .ok (netAB2, sigsAB2) ∧
    netAB.timestep = 0 ∧
    netAB2.timestep = 2 ∧
    (netAB2.layers.map fun l => (l.name, l.timestep)) = [("A", 2), ("B", 10)] ∧
    sigsAB2.lookup "A" = some (some 2) ∧
    sigsAB2.lookup "B" = some (some 10) ∧
    check_sync netAB2 = .ok () := by
  decide

/-- C7 (code bug): with explicit per-batch step counts the computed
batches need not sum to `num_timesteps`: for `num_timesteps = 100` and
`nums_ts_batch = [60, 60]` the `diff_ts < 0` branch truncates to
`[60, 60]` and — the source's `# - Correct last value` comment is
followed by no code — never clips the last batch, so the batches sum to
120, not 100.  The uniform case the claim cites does hold:
`num_timesteps = 100` with scalar batch size 30 gives `[30, 30, 30,
10]` and exactly 4 callback invocations with `is_first` only first and
`is_last` only last. -/
theorem train_batch_sum_bug :
    compute_batches 1 100 none (some [60, 60]) = [60, 60] ∧
    ([60, 60] : List ℕ).sum = 120 ∧
    compute_batches 1 100 none (some [30]) = [30, 30, 30, 10] ∧
    train_calls [30, 30, 30, 10] =
      [(true, false), (false, false), (false, false), (false, true)] := by
  decide

/-- Witness for C10 at `u = 1/1000`, `m = 6`, `n = 4`. -/
theorem gcd_terminates_and_divides_witness :
    (0 : ℚ) < 1 / 1000 ∧
    ∃ g, gcdDecFuel (4 + 1) (((6 : ℕ) : ℚ) * (1 / 1000)) (((4 : ℕ) : ℚ) * (1 / 1000)) =
        some g ∧
      (∃ j : ℕ, (j : ℚ) * g = ((6 : ℕ) : ℚ) * (1 / 1000)) ∧
      (∃ k : ℕ, (k : ℚ) * g = ((4 : ℕ) : ℚ) * (1 / 1000)) :=
  ⟨by norm_num, gcd_terminates_and_divides (1 / 1000) 6 4 (by norm_num)⟩

/-- Witness for C2 on the two-layer network (dts 0.1 and 0.02). -/
theorem set_dt_spec_witness :
    ∃ D, netABdt.dt = some D ∧
      (∀ lyr ∈ netAB.layers, is_multiple D lyr.dt = true) ∧
      D ≤ 100 * np_amax (netAB.layers.map fun lyr => lyr.dt) :=
  (set_dt_spec netAB (1 / 10) [1 / 50] (by decide) (by decide)).1 netABdt (by decide)

/-- Witness for C3 on the two-layer configuration "B" → "C". -/
theorem set_evolution_order_spec_witness :
    ∃ order, set_evolution_order [lyrP, lyrC] = .ok order ∧
      order.Perm [lyrP, lyrC] ∧
      ∀ i, ∀ hi : i < order.length, ∀ p,
        (order.get ⟨i, hi⟩).pre_layer = some p →
        ∃ j, ∃ hj : j < order.length, j < i ∧ (order.get ⟨j, hj⟩).name = p :=
  (set_evolution_order_spec [lyrP, lyrC]).1 (by decide)
    ⟨fun s => if s = "B" then 0 else 1, by decide⟩

/-- Witness for C1: a concrete successful evolution of the two-layer
network, for which the theorem yields the synchrony equalities. -/
theorem evolve_post_sync_witness :
    evolve layerAdvance netAB (some 0) 2 = .ok (netAB2, sigsAB2) ∧
    ∀ lyr ∈ netAB2.layers,
      lyr.timestep = netAB2.timestep * lyr.timesteps_per_network_dt :=
  ⟨by decide,
    (evolve_post_sync layerAdvance netAB (some 0) 2).1 netAB2 sigsAB2 (by decide)⟩

/-- Witness for C4 (amended) at the concrete self-connect on the
"B" → "C" network. -/
theorem connect_cycle_rollback_witness :
    connect netBC lyrC lyrC =
      ({ netBC with layers := netBC.layers.map fun l =>
          if l.name = lyrC.name then { l with pre_layer := none } else l },
       some .cannotResolveOrder) :=
  connect_cycle_rollback netBC lyrC lyrC .cannotResolveOrder (by decide) (by decide)
    (by decide)

/-- Witness for C8: connecting A to a layer with a different input type
tag raises the type-mismatch error naming both layers and both tags and
leaves the network untouched. -/
theorem connect_mismatch_spec_witness :
    (connect netAB lyrA lyrD).1 = netAB ∧
    ((connect netAB lyrA lyrD).2 =
        some (.dimensionMismatch lyrA.name lyrD.name lyrA.size lyrD.size_in) ∨
      (connect netAB lyrA lyrD).2 =
        some (.typeMismatch lyrA.name lyrD.name lyrA.output_type lyrD.input_type)) :=
  connect_mismatch_spec netAB lyrA lyrD (by decide)

end ConcreteEvaluation

end Rockpool
